import Mathlib

/-!
Verification development for the duplicate-detection core of datablock-utils
(`source/operators/find_similar.py`).

Modelling conventions:
* Blender node objects are identified by name; a resource's node graph is
  abstracted to the list of per-node fingerprints (`NodeProperties.props`
  lists) that `contents_of_ntrees` derives from it.
* Python floats are idealized as elements of a linear ordered field: `ℝ` for
  the similarity scorer (whose normalization divides by a square root) and a
  generic `[LinearOrderedField α] [FloorRing α]` for the grouping stage
  `process`, which is instantiated at `ℚ` for concrete evaluations and at `ℝ`
  when composed with the scorer.
* Python exceptions are modelled with `Except`/`Option`: an uncaught
  exception is an `error`/`none` result.
* A `Link` value (a graph-reference fingerprint entry) compares by its
  `reduced_props` key, so in the scoring pipeline it is represented directly
  by that key (`Entry.link`); the raw one-level reduction semantics of
  `Link.__eq__` over a (possibly cyclic) node graph is modelled separately
  by `RawEntry`/`link_eq`.
* `networkx` is an external library: `find_cliques` is modelled by its
  documented contract (all maximal cliques; enumeration order is canonical
  by `List.sublists` rather than the Bron-Kerbosch visit order, which the
  theorems below never depend on), and `nx.Graph`/`connected_components`
  by insertion-ordered node and unordered-edge lists.
-/

namespace DBU

attribute [local semireducible] Rat.inv Rat.mul Rat.add Rat.sub

/-- Primitive (non-reference) fingerprint values: strings (type tags, names,
paths), numbers, booleans, and flattened array-like tuples. -/
inductive Prim where
  | s (v : String)
  | i (v : Int)
  | b (v : Bool)
  | tup (v : List Int)
deriving DecidableEq, Repr

/-- One entry of a `NodeProperties.props` list: either a primitive value or a
graph-reference (`Link`) entry.  Since `Link.__eq__` compares only
`reduced_props = (from_socket_idx, [p for p in linked_props if not
isinstance(p, Link)])`, a link entry is represented by that reduced key. -/
inductive Entry where
  | prim (p : Prim)
  | link (fromSocketIdx : Nat) (reduced : List Prim)
deriving DecidableEq, Repr

/-- The `props` list of one `NodeProperties` value: for an ordinary node it
starts with `(bl_idname, mute)`, for the synthetic tree-interface fingerprint
it starts with the string marker. -/
abbrev NodeProps := List Entry

/-! ### Stable sorting (Python `sorted`)

Python `sorted` is a stable sort; it is modelled by a stable insertion
sort. -/

/-- Python string comparison: lexicographic by code point. -/
def charsLe : List Char → List Char → Bool
  | [], _ => true
  | _ :: _, [] => false
  | c :: cs, d :: ds =>
    if c.toNat < d.toNat then true
    else if d.toNat < c.toNat then false
    else charsLe cs ds

def strLe (a b : String) : Bool :=
  charsLe a.data b.data

def sinsert (le : α → α → Bool) (x : α) : List α → List α
  | [] => [x]
  | y :: ys => if le x y then x :: y :: ys else y :: sinsert le x ys

def ssort (le : α → α → Bool) : List α → List α
  | [] => []
  | x :: xs => sinsert le x (ssort le xs)

/-! ### `pair_nodes` -/

/-- Number of position-aligned equal entries of two tails.  Positions where
`zip_longest` pads with the `_SENTINEL` object can never compare equal, so
the count over `zip_longest` equals the count over `zip`. -/
def dotOf (t1 t2 : List Entry) : Nat :=
  (t1.zip t2).countP (fun ab => decide (ab.1 = ab.2))

/-- The `diff_map` dict of `pair_nodes`, in insertion order.  Python keys the
dict by the pair of node objects; object identity is modelled by the pair of
positions in the two input lists.  The value is `(cost, dot)` with
`cost = len(props1[1:]) - dot`. -/
def diff_map (nodes1 nodes2 : List NodeProps) : List ((Nat × Nat) × (Nat × Nat)) :=
  (nodes1.enum.map (fun ip =>
    nodes2.enum.map (fun jq =>
      ((ip.1, jq.1),
        ((ip.2.drop 1).length - dotOf (ip.2.drop 1) (jq.2.drop 1),
          dotOf (ip.2.drop 1) (jq.2.drop 1)))))).flatten

/-- The greedy acceptance loop of `pair_nodes`: walk the cost-sorted pairs,
accept a pair when neither side has been consumed, and sum the accepted
pairs' dot counts. -/
def greedyDots : List ((Nat × Nat) × (Nat × Nat)) → List Nat → List Nat → Nat
  | [], _, _ => 0
  | (ij, cd) :: rest, seen1, seen2 =>
    if ij.1 ∈ seen1 ∨ ij.2 ∈ seen2 then greedyDots rest seen1 seen2
    else cd.2 + greedyDots rest (ij.1 :: seen1) (ij.2 :: seen2)

/-- `pair_nodes(nodes1, nodes2)`: total agreement of the greedy
cost-ascending pairing (Python `sorted` by cost is stable). -/
def pair_nodes (nodes1 nodes2 : List NodeProps) : Nat :=
  greedyDots (ssort (fun a b => decide (a.2.1 ≤ b.2.1)) (diff_map nodes1 nodes2)) [] []

/-! ### `cosine_similarity` -/

/-- The grouping key `p.props[0]` (a `bl_idname` string, or the tree-sockets
marker).  The source only ever has a string here; a non-string head is mapped
to `""`. -/
def blKey (p : NodeProps) : String :=
  match p.head? with
  | some (.prim (.s v)) => v
  | _ => ""

def groupRunsAux (k : String) (acc : List NodeProps) :
    List NodeProps → List (String × List NodeProps)
  | [] => [(k, acc.reverse)]
  | p :: ps =>
    if blKey p = k then groupRunsAux k (p :: acc) ps
    else (k, acc.reverse) :: groupRunsAux (blKey p) [p] ps

/-- `itertools.groupby` over an already sorted list. -/
def groupRuns : List NodeProps → List (String × List NodeProps)
  | [] => []
  | p :: ps => groupRunsAux (blKey p) [p] ps

/-- `{t: list(g) for t, g in groupby(sorted(x, key=bl_idname), bl_idname)}`:
type buckets in ascending key order (Python `sorted` is stable). -/
def ntypesOf (x : List NodeProps) : List (String × List NodeProps) :=
  groupRuns (ssort (fun a b => strLe (blKey a) (blKey b)) x)

def lookupGroup (l : List (String × List NodeProps)) (k : String) :
    Option (List NodeProps) :=
  (l.find? (fun e => decide (e.1 = k))).map Prod.snd

/-- `s1 = sum([len(p1) - 1 for p1 in x])`.  Every fingerprint the source
builds is nonempty, so the Nat subtraction is exact. -/
def s1Of (x : List NodeProps) : Nat :=
  (x.map (fun p => p.length - 1)).sum

/-- `s2 = sum([pair_nodes(g1, ntypes2[t1]) for t1, g1 in ntypes1.items() if
t1 in ntypes2])` (a type absent from `ntypes2` contributes nothing). -/
def s2Of (x y : List NodeProps) : Nat :=
  ((ntypesOf x).map (fun tg =>
    match lookupGroup (ntypesOf y) tg.1 with
    | some g2 => pair_nodes tg.2 g2
    | none => 0)).sum

/-- `cosine_similarity(x, y) = s2 / sqrt(s1 * s2)`, with the
`ZeroDivisionError` (raised exactly when `s1 * s2 == 0`) caught and turned
into `0`. -/
noncomputable def cosine_similarity (x y : List NodeProps) : ℝ :=
  if s1Of x = 0 ∨ s2Of x y = 0 then 0
  else (s2Of x y : ℝ) / Real.sqrt ((s1Of x : ℝ) * (s2Of x y : ℝ))

/-! ### `find_similar` -/

/-- Which branch of the `find_similar` loop body a pair took (observational
only; the loops ignore it). -/
inductive FsDec where
  | seenSkip
  | ratioSkip
  | belowThreshold
  | keptScore
  | fastPath
deriving DecidableEq, Repr

abbrev ScoreEntry := (String × String) × ℝ

/-- One iteration of the nested loop body of `find_similar` for the pair
`(k1, x), (k2, y)`: the seen/identity check, the cheap length-ratio
rejection (whose division raises uncaught `ZeroDivisionError` when both
collections are empty), the ordered-list equality fast path, and the scored
path.  `sorted((x, y), key=len)` is stable, so `smallest = x` when the
lengths tie. -/
noncomputable def fsStep (t : ℝ) (k1 : String) (x : List NodeProps) (k2 : String)
    (y : List NodeProps) (seen : List (Finset String)) (results : List ScoreEntry) :
    Except Unit (List ScoreEntry × List (Finset String) × FsDec) :=
  if ({k1, k2} : Finset String) ∈ seen ∨ k1 = k2 then .ok (results, seen, .seenSkip)
  else
    let seen2 := ({k1, k2} : Finset String) :: seen
    let smallest := if x.length ≤ y.length then x else y
    let largest := if x.length ≤ y.length then y else x
    if largest.length = 0 then .error ()
    else if ((smallest.length : ℝ) / (largest.length : ℝ)) + 1 / 10 < t then
      .ok (results, seen2, .ratioSkip)
    else if x ≠ y then
      if cosine_similarity largest smallest < t then .ok (results, seen2, .belowThreshold)
      else .ok (results ++ [((k1, k2), cosine_similarity largest smallest)], seen2, .keptScore)
    else .ok (results ++ [((k1, k2), (1 : ℝ))], seen2, .fastPath)

/-- The inner `for k2, y in items` loop. -/
noncomputable def fsInner (t : ℝ) (k1 : String) (x : List NodeProps) :
    List (String × List NodeProps) → List (Finset String) → List ScoreEntry →
    Except Unit (List ScoreEntry × List (Finset String))
  | [], seen, results => .ok (results, seen)
  | (k2, y) :: rest, seen, results =>
    match fsStep t k1 x k2 y seen results with
    | .error e => .error e
    | .ok (results2, seen2, _) => fsInner t k1 x rest seen2 results2

/-- The outer `for k1, x in items` loop. -/
noncomputable def fsOuter (t : ℝ) (items : List (String × List NodeProps)) :
    List (String × List NodeProps) → List (Finset String) → List ScoreEntry →
    Except Unit (List ScoreEntry × List (Finset String))
  | [], seen, results => .ok (results, seen)
  | (k1, x) :: rest, seen, results =>
    match fsInner t k1 x items seen results with
    | .error e => .error e
    | .ok (results2, seen2) => fsOuter t items rest seen2 results2

/-- `find_similar(contents, results)` for one call with an empty incoming
`results` dict: the accumulated `(k1, k2) -> score` entries in insertion
order, or an error for an uncaught `ZeroDivisionError`. -/
noncomputable def find_similar (contents : List (String × List NodeProps)) (t : ℝ) :
    Except Unit (List ScoreEntry) :=
  match fsOuter t contents contents [] [] with
  | .error e => .error e
  | .ok (results, _) => .ok results

/-! ### `process`

The grouping stage is generic over the linear ordered field carrying the
scores (floats in the source): `ℚ` at concrete rational inputs, `ℝ` when
composed with the scorer. -/

variable {α : Type} [LinearOrderedField α] [FloorRing α]

/-- `graphs[score].add_edge(p, q)`: extend the per-score graph map (an
association list in score first-occurrence order, each graph an edge list in
insertion order). -/
def addScoreEdge (s : α) (e : String × String) :
    List (α × List (String × String)) → List (α × List (String × String))
  | [] => [(s, [e])]
  | (s0, es) :: rest =>
    if s0 = s then (s0, es ++ [e]) :: rest else (s0, es) :: addScoreEdge s e rest

/-- The `graphs` defaultdict of `process`: one graph per distinct score. -/
def buildGraphs (results : List ((String × String) × α)) :
    List (α × List (String × String)) :=
  results.foldl (fun gs e => addScoreEdge e.2 e.1 gs) []

/-- `nx.Graph` node list: nodes in edge-insertion order (`add_edge(p, q)`
inserts `p` then `q`). -/
def insertNew (ns : List String) (v : String) : List String :=
  if v ∈ ns then ns else ns ++ [v]

def nodesOfEdges (es : List (String × String)) : List String :=
  es.foldl (fun ns e => insertNew (insertNew ns e.1) e.2) []

def adjacentIn (es : List (String × String)) (a b : String) : Bool :=
  es.any (fun e => (e.1 = a ∧ e.2 = b) ∨ (e.1 = b ∧ e.2 = a))

def isClique (es : List (String × String)) (c : List String) : Bool :=
  c.all (fun a => c.all (fun b => a = b ∨ adjacentIn es a b))

def isMaxClique (es : List (String × String)) (vs c : List String) : Bool :=
  isClique es c &&
    vs.all (fun v => decide (v ∈ c) || !(c.all (fun a => adjacentIn es v a)))

/-- `nx.find_cliques`, by its documented contract: all maximal cliques of the
graph, each yielded once.  Enumeration is canonical over `List.sublists` of
the node list instead of the Bron-Kerbosch visit order; no theorem below
depends on the enumeration order.  Each clique is then sorted by name, as in
`tuple(sorted(c))`. -/
def find_cliques (es : List (String × String)) : List (List String) :=
  (((nodesOfEdges es).sublists).filter
      (fun c => !c.isEmpty && isMaxClique es (nodesOfEdges es) c)).map
    (ssort strLe)

/-- The `cliques` dict of `process`: for each per-score graph, its maximal
cliques keyed by sorted member tuple.  (Keys are distinct across scores
because each edge carries exactly one score, so the dict `update` never
overwrites.) -/
def cliquesOf (results : List ((String × String) × α)) : List (List String × α) :=
  ((buildGraphs results).map (fun sg =>
    (find_cliques sg.2).map (fun c => (c, sg.1)))).flatten

/-- Python `round(x, 2)`: round half to even at two decimal places (binary
float representation error is idealized away). -/
def pyRound2 (x : α) : α :=
  let y := x * 100
  let n : ℤ := ⌊y⌋
  let r : ℤ :=
    if y - (n : α) < 1 / 2 then n
    else if (1 : α) / 2 < y - (n : α) then n + 1
    else if Even n then n else n + 1
  (r : α) / 100

/-- The filter `if 1 > score >= threshold` applied to the candidate groups
before their pairwise edges are added to the clustering graph, where
`threshold = round(settings.grouping_threshold, 2)` has already been
rounded. -/
def qualifyingOf (cliques : List (List String × α)) (thr : α) :
    List (List String × α) :=
  cliques.filter (fun gs => decide (gs.2 < 1) && decide (thr ≤ gs.2))

/-- The clustering graph `G` of `process`: insertion-ordered node list plus
unordered edges carrying the `score` attribute (re-adding an edge overwrites
its score, as in `nx`). -/
structure ClusterGraph (α : Type) where
  nodes : List String
  edges : List (Finset String × α)

def upsertEdge (k : Finset String) (s : α) :
    List (Finset String × α) → List (Finset String × α)
  | [] => [(k, s)]
  | (k0, s0) :: rest =>
    if k0 = k then (k0, s) :: rest else (k0, s0) :: upsertEdge k s rest

def addClusterEdge (G : ClusterGraph α) (a b : String) (s : α) : ClusterGraph α :=
  { nodes := insertNew (insertNew G.nodes a) b
    edges := upsertEdge ({a, b} : Finset String) s G.edges }

def listProd (g h : List String) : List (String × String) :=
  g.flatMap (fun a => h.map (fun b => (a, b)))

/-- `G.add_edges_from(product(group, group), score=score)` — note the product
includes the self-pairs `(p, p)`, so the graph carries self-loop edges. -/
def addGroupEdges (G : ClusterGraph α) (g : List String) (s : α) : ClusterGraph α :=
  (listProd g g).foldl (fun G0 e => addClusterEdge G0 e.1 e.2 s) G

def clusterGraphOf (cliques : List (List String × α)) (thr : α) : ClusterGraph α :=
  (qualifyingOf cliques thr).foldl (fun G gs => addGroupEdges G gs.1 gs.2) ⟨[], []⟩

/-! `nx.connected_components`: components in order of first node, each
collected in node-insertion order. -/

def adjacentC (edges : List (Finset String × α)) (a b : String) : Bool :=
  edges.any (fun e => e.1 = ({a, b} : Finset String))

def expandOnce (edges : List (Finset String × α)) (nodes cur : List String) :
    List String :=
  nodes.foldl (fun acc v =>
    if v ∈ acc then acc
    else if acc.any (fun u => adjacentC edges u v) then acc ++ [v] else acc) cur

def reachList (edges : List (Finset String × α)) (nodes : List String) :
    Nat → List String → List String
  | 0, cur => cur
  | n + 1, cur => reachList edges nodes n (expandOnce edges nodes cur)

def componentsOf (G : ClusterGraph α) : List (List String) :=
  (G.nodes.foldl (fun dc v =>
    if v ∈ dc.1 then dc
    else
      let c := reachList G.edges G.nodes G.nodes.length [v]
      (dc.1 ++ c, dc.2 ++ [c])) (([], []) : List String × List (List String))).2

/-- Edges of `G.subgraph(c)`: both endpoints inside the component. -/
def subgraphEdges (G : ClusterGraph α) (c : List String) :
    List (Finset String × α) :=
  G.edges.filter (fun e => decide (e.1 ⊆ c.toFinset))

/-- `statistics.fmean` of the edge scores. -/
def fmeanScores (es : List (Finset String × α)) : α :=
  (es.map Prod.snd).sum / (es.length : α)

/-- Python dict assignment `d[k] = v`: overwrite in place or append. -/
def upsertAssoc (k : List String) (v : α) :
    List (List String × α) → List (List String × α)
  | [] => [(k, v)]
  | (k0, v0) :: rest =>
    if k0 = k then (k0, v) :: rest else (k0, v0) :: upsertAssoc k v rest

/-- The merged-cluster loop of `process`.  The source keys the dict by
`tuple(G)` — the node list of the whole clustering graph — not by the
component `c` whose subgraph mean is being computed. -/
def groupsOf (G : ClusterGraph α) : List (List String × α) :=
  (componentsOf G).foldl (fun gs c =>
    if 2 < c.length then upsertAssoc G.nodes (fmeanScores (subgraphEdges G c)) gs
    else gs) []

/-- Python `a | b` on dicts: `a`'s keys in order with values overridden by
`b` on collision, then `b`'s new keys in order. -/
def dictUnion (a b : List (List String × α)) : List (List String × α) :=
  a.map (fun e => (e.1, ((b.find? (fun e2 => decide (e2.1 = e.1))).map Prod.snd).getD e.2)) ++
    b.filter (fun e2 => !a.any (fun e => decide (e.1 = e2.1)))

def seenNamesOf (groups : List (List String × α)) : List String :=
  (groups.map Prod.fst).flatten

/-- `raw_scored = {g: s for g, s in cliques.items() if s < 1 and not
seen.intersection(g)} | groups`. -/
def rawScoredOf (cliques groups : List (List String × α)) : List (List String × α) :=
  dictUnion
    (cliques.filter (fun gs =>
      decide (gs.2 < 1) && !(gs.1.any (fun v => decide (v ∈ seenNamesOf groups)))))
    groups

/-- Sort by descending score (Python `sorted(..., reverse=True)` is stable)
and display floored to one decimal place of a percentage. -/
def scoredOf (raw : List (List String × α)) : List (List String × α) :=
  (ssort (fun a b => decide (b.2 ≤ a.2)) raw).map
    (fun gs => (gs.1, ((⌊gs.2 * 100 * 10⌋ : ℤ) : α) / 10))

def duplicatesOf (cliques : List (List String × α)) : List (List String) :=
  (cliques.filter (fun gs => decide (1 ≤ gs.2))).map Prod.fst

/-- `process(results)`: the exact-duplicate groups and the scored groups. -/
def process (results : List ((String × String) × α)) (groupingThreshold : α) :
    List (List String) × List (List String × α) :=
  let cliques := cliquesOf results
  let G := clusterGraphOf cliques (pyRound2 groupingThreshold)
  let groups := groupsOf G
  (duplicatesOf cliques, scoredOf (rawScoredOf cliques groups))

/-! ### `merge_ids` and the merge operator -/

/-- The observable host mutations of `merge_ids`, in program order. -/
inductive MergeEv where
  | remap (junk target : String)
  | removeId (junk : String)
deriving DecidableEq, Repr

/-- `merge_ids(duplicate_ids, bl_data)`: for each group the first member is
the survivor; each remaining member is remapped onto it and then immediately
removed.  Unpacking an empty group raises (modelled as `none`). -/
def merge_ids : List (List String) → Option (Nat × List MergeEv)
  | [] => some (0, [])
  | g :: rest =>
    match g with
    | [] => none
    | target :: junk =>
      match merge_ids rest with
      | none => none
      | some (n, tr) =>
        some (junk.length + n,
          (junk.flatMap (fun j => [.remap j target, .removeId j])) ++ tr)

def removedOf (tr : List MergeEv) : List String :=
  tr.filterMap (fun e => match e with | .removeId j => some j | _ => none)

/-- `DBU_OT_NodeTreesMergeDuplicates.execute`: resolve the cached duplicate
groups against the live collection; on a `KeyError` (stale member name)
re-run duplicate detection on the live collection and merge the freshly
computed duplicate groups instead.  The live collection is abstracted to the
per-resource fingerprint map that `contents_of_ntrees` derives from it, and
the trailing re-run of detection (which only refreshes the displayed
results) is omitted. -/
noncomputable def mergeExecute (stale : List (List String))
    (live : List (String × List NodeProps)) (t gt : ℝ) :
    Option (Nat × List MergeEv) :=
  if stale.all (fun g => g.all (fun n => (live.map Prod.fst).contains n)) then
    merge_ids stale
  else
    match find_similar live t with
    | .error _ => none
    | .ok res => merge_ids (process res gt).1

/-! ### Root-link resolution (`get_root_link`, `get_precomputed_root_link`)

Links are modelled by their source node name and validity flag; the
environment gives each node its reroute-ness, its input socket count, and
the incoming link of each connected input socket (the `links` dict of
`contents_of_ntrees` is exactly that map).  Recursion carries fuel: Python
raises `RecursionError` when a reroute chain exceeds the interpreter limit,
modelled by fuel exhaustion. -/

structure PLink where
  fromNode : String
  isValid : Bool
deriving DecidableEq, Repr

structure LinkEnv where
  reroutes : List String
  inputCounts : List (String × Nat)
  incoming : List ((String × Nat) × PLink)

def numInputsOf (env : LinkEnv) (n : String) : Nat :=
  ((env.inputCounts.find? (fun e => decide (e.1 = n))).map Prod.snd).getD 0

def incomingOf (env : LinkEnv) (n : String) (i : Nat) : Option PLink :=
  (env.incoming.find? (fun e => decide (e.1 = (n, i)))).map Prod.snd

inductive PyErr where
  | keyErr
  | recursionErr
deriving DecidableEq, Repr

/-- `get_precomputed_root_link(link, links)`: the `try` around
`links[link.from_node.inputs[0]]` catches only `IndexError` (an empty
`inputs` collection); a missing key in the `links` dict raises `KeyError`,
which propagates. -/
def get_precomputed_root_link (env : LinkEnv) : Nat → PLink → Except PyErr PLink
  | 0, _ => .error .recursionErr
  | fuel + 1, link =>
    if link.fromNode ∈ env.reroutes then
      if numInputsOf env link.fromNode = 0 then .ok link
      else
        match incomingOf env link.fromNode 0 with
        | none => .error .keyErr
        | some prev =>
          if prev.isValid then get_precomputed_root_link env fuel prev else .ok link
    else .ok link

/-- `get_root_link(link)`: `link.from_node.inputs[0].links[0]` raises
`IndexError` both when `inputs` is empty and when the socket has no incoming
link, and both are caught, falling back to the current link. -/
def get_root_link (env : LinkEnv) : Nat → PLink → Except PyErr PLink
  | 0, _ => .error .recursionErr
  | fuel + 1, link =>
    if link.fromNode ∈ env.reroutes then
      match
        (if numInputsOf env link.fromNode = 0 then none
         else incomingOf env link.fromNode 0) with
      | none => .ok link
      | some prev =>
        if prev.isValid then get_root_link env fuel prev else .ok link
    else .ok link

/-! ### The raw `Link.__eq__` model (one-level reduction over a node graph)

`NodeProperties.props` lists live in a name-keyed node map that may be
cyclic (a node's `Link` entries reference other nodes' `NodeProperties`).
`Link.reduced_props` drops every nested `Link` entry of the referenced
node's props, so equality looks exactly one level deep. -/

inductive RawEntry where
  | prim (p : Prim)
  | link (fromSocketIdx : Nat) (target : String)
deriving DecidableEq, Repr

/-- A name-keyed node map; link targets may reference any node, including
cyclically. -/
abbrev NodeGraph := List (String × List RawEntry)

def propsOf (g : NodeGraph) (n : String) : List RawEntry :=
  ((g.find? (fun e => decide (e.1 = n))).map Prod.snd).getD []

def RawEntry.isLink : RawEntry → Bool
  | .link _ _ => true
  | _ => false

/-- `Link.reduced_props = (from_socket_idx, [p for p in linked_props if not
isinstance(p, Link)])`. -/
def reduced_props (g : NodeGraph) (i : Nat) (t : String) : Nat × List RawEntry :=
  (i, (propsOf g t).filter (fun e => !e.isLink))

/-- Equality of two props entries under Python `==`: `Link.__eq__` compares
`reduced_props`; a `Link` never equals a non-`Link`; primitives compare by
value. -/
def link_eq (g : NodeGraph) : RawEntry → RawEntry → Bool
  | .link i t, .link j u => decide (reduced_props g i t = reduced_props g j u)
  | .prim p, .prim q => decide (p = q)
  | _, _ => false

/-! ### Claim-side definitions (used to compare the source behaviour against
the specification's wording) -/

/-- Claim wording (C2): the merge trace never contains a removal followed by
a later remap, i.e. removal happens as one batch after all remaps. -/
def noRemovalThenRemap : List MergeEv → Bool
  | [] => true
  | .remap _ _ :: rest => noRemovalThenRemap rest
  | .removeId _ :: rest => rest.all (fun e => match e with | .remap _ _ => false | _ => true)
      && noRemovalThenRemap rest

/-- Amended wording (C2): the trace is a sequence of adjacent pairs, each
remapping one junk resource and immediately removing that same resource. -/
def pairedTrace : List MergeEv → Bool
  | [] => true
  | .remap j _ :: .removeId j2 :: rest => decide (j = j2) && pairedTrace rest
  | _ => false

/-- The score a comparison pass associates to an unordered resource pair:
look the pair up in either orientation. -/
def scoreLookup (res : List ScoreEntry) (a b : String) : Option ℝ :=
  (res.find? (fun e => decide (e.1 = (a, b) ∨ e.1 = (b, a)))).map Prod.snd

/-- The unordered pair of resource names of a recorded score entry. -/
def keysetOf (e : ScoreEntry) : Finset String :=
  {e.1.1, e.1.2}

/-- Claim wording (C5): a collection's total field count, i.e. the summed
lengths of its fingerprints (the source's cheap rejection uses the number of
fingerprints instead). -/
def totalFieldCount (x : List NodeProps) : Nat :=
  (x.map List.length).sum

/-- Claim wording (C7): merge the cached groups directly, silently skipping
every member that no longer resolves in the live collection; returns the
removed (junk) member names. -/
def merge_skipping_stale (stale : List (List String)) (liveNames : List String) :
    List String :=
  stale.flatMap (fun g => (g.filter (fun n => decide (n ∈ liveNames))).drop 1)

/-! ### Concrete instances used by the counterexamples and witnesses -/

/-- Six pairwise scores: resources a, b, c pairwise at 0.9 and d, e, f
pairwise at 0.87 — two independent triangles in the grouping graph. -/
def c1Results : List ((String × String) × ℚ) :=
  [(("a", "b"), 9 / 10), (("a", "c"), 9 / 10), (("b", "c"), 9 / 10),
    (("d", "e"), 87 / 100), (("d", "f"), 87 / 100), (("e", "f"), 87 / 100)]

/-- Scenario D of the spec: a single triangle at 0.9. -/
def cScenarioD : List ((String × String) × ℚ) :=
  [(("a", "b"), 9 / 10), (("a", "c"), 9 / 10), (("b", "c"), 9 / 10)]

/-- A four-entry fingerprint `[bl_idname, mute, 1, 2]`. -/
def cP : NodeProps :=
  [.prim (.s "T"), .prim (.b false), .prim (.i 1), .prim (.i 2)]

/-- A five-entry fingerprint extending `cP` by one value. -/
def cQ : NodeProps :=
  [.prim (.s "T"), .prim (.b false), .prim (.i 1), .prim (.i 2), .prim (.i 3)]

/-- Two resources whose fingerprint collections are equal as multisets but
listed in different orders. -/
def c3Contents : List (String × List NodeProps) :=
  [("k1", [cQ, cP]), ("k2", [cP, cQ])]

/-- One fingerprint with ten value fields. -/
def pBig : NodeProps :=
  [.prim (.s "T"), .prim (.b false), .prim (.i 0), .prim (.i 1), .prim (.i 2),
    .prim (.i 3), .prim (.i 4), .prim (.i 5), .prim (.i 6), .prim (.i 7),
    .prim (.i 8), .prim (.i 9)]

def q1Small : NodeProps := [.prim (.s "T"), .prim (.b false), .prim (.i 0)]

def q2Small : NodeProps := [.prim (.s "T2"), .prim (.b false)]

/-- One single-fingerprint resource with many fields against one
two-fingerprint resource with few fields: the fingerprint-count ratio and
the total-field-count ratio fall on opposite sides of the threshold. -/
def c5Contents : List (String × List NodeProps) :=
  [("k1", [pBig]), ("k2", [q1Small, q2Small])]

/-- A reroute node `r` whose single input socket has no incoming link, and a
valid link leaving it. -/
def c6Env : LinkEnv :=
  { reroutes := ["r"], inputCounts := [("r", 1)], incoming := [] }

def c6Link : PLink := { fromNode := "r", isValid := true }

/-- A small fingerprint used by the C7 scenario resources. -/
def pA : NodeProps := [.prim (.s "T"), .prim (.b false)]

def rA : NodeProps := [.prim (.s "U"), .prim (.b false)]

def rB : NodeProps := [.prim (.s "U2"), .prim (.b false)]

def rC : NodeProps := [.prim (.s "U3"), .prim (.b false)]

/-- The live collection after member "B" of the cached group was deleted
externally: "A" and "C" are still duplicates, and a fresh duplicate pair
"D"/"E" exists that the cached results never saw. -/
def c7Live : List (String × List NodeProps) :=
  [("A", [pA]), ("C", [pA]), ("D", [rA, rB, rC]), ("E", [rA, rB, rC])]

/-- The cached (stale) duplicate groups from the prior run. -/
def c7Stale : List (List String) := [["A", "B", "C"]]

/-- A cyclic node graph: nodes "a" and "b" reference each other, with equal
non-reference entries. -/
def c9Cyclic : NodeGraph :=
  [("a", [.prim (.i 1), .link 0 "b"]), ("b", [.prim (.i 1), .link 0 "a"])]

/-- A second graph agreeing with `c9Cyclic` on the non-reference entries of
"a" and "b" but with entirely different (deeper) link structure. -/
def c9Other : NodeGraph :=
  [("a", [.prim (.i 1), .link 5 "a"]), ("b", [.prim (.i 1), .link 7 "zzz"])]

/-! ## Theorems -/

/-! ### Supporting lemmas -/

theorem pairedTrace_append : ∀ a b : List MergeEv,
    pairedTrace a = true → pairedTrace b = true → pairedTrace (a ++ b) = true
  | [], _, _, hb => hb
  | .remap j t :: .removeId j2 :: rest, b, ha, hb => by
    simp only [pairedTrace, Bool.and_eq_true, decide_eq_true_eq] at ha
    simpa only [List.cons_append, pairedTrace, Bool.and_eq_true, decide_eq_true_eq]
      using ⟨ha.1, pairedTrace_append rest b ha.2 hb⟩
  | [.remap _ _], _, ha, _ => by simp [pairedTrace] at ha
  | .remap _ _ :: .remap _ _ :: _, _, ha, _ => by simp [pairedTrace] at ha
  | .removeId _ :: _, _, ha, _ => by simp [pairedTrace] at ha

theorem pairedTrace_block (target : String) : ∀ junk : List String,
    pairedTrace (junk.flatMap (fun j => [.remap j target, .removeId j])) = true
  | [] => rfl
  | j :: js => by
    simpa [pairedTrace] using pairedTrace_block target js

theorem fsStep_seen {t : ℝ} {k1 k2 : String} {x y : List NodeProps}
    {seen : List (Finset String)} {res : List ScoreEntry}
    (h : ({k1, k2} : Finset String) ∈ seen ∨ k1 = k2) :
    fsStep t k1 x k2 y seen res = .ok (res, seen, .seenSkip) := by
  simp only [fsStep, if_pos h]

theorem fsStep_err {t : ℝ} {k1 k2 : String} {x y : List NodeProps}
    {seen : List (Finset String)} {res : List ScoreEntry}
    (h1 : ¬(({k1, k2} : Finset String) ∈ seen ∨ k1 = k2))
    (hx : x = []) (hy : y = []) :
    fsStep t k1 x k2 y seen res = .error () := by
  subst hx hy
  simp [fsStep, h1]

theorem fsStep_ratio_le {t : ℝ} {k1 k2 : String} {x y : List NodeProps}
    {seen : List (Finset String)} {res : List ScoreEntry}
    (h1 : ¬(({k1, k2} : Finset String) ∈ seen ∨ k1 = k2))
    (hxy : x.length ≤ y.length) (hy : y ≠ [])
    (h3 : ((x.length : ℝ) / (y.length : ℝ)) + 1 / 10 < t) :
    fsStep t k1 x k2 y seen res =
      .ok (res, ({k1, k2} : Finset String) :: seen, .ratioSkip) := by
  have hy0 : ¬ y.length = 0 := by simpa [List.length_eq_zero] using hy
  have hsm : (if x.length ≤ y.length then x else y) = x := if_pos hxy
  have hlg : (if x.length ≤ y.length then y else x) = y := if_pos hxy
  simp only [fsStep, if_neg h1]
  rw [hsm, hlg, if_neg hy0, if_pos h3]

theorem fsStep_fast_le {t : ℝ} {k1 k2 : String} {x y : List NodeProps}
    {seen : List (Finset String)} {res : List ScoreEntry}
    (h1 : ¬(({k1, k2} : Finset String) ∈ seen ∨ k1 = k2))
    (hxy : x.length ≤ y.length) (hy : y ≠ [])
    (h3 : ¬(((x.length : ℝ) / (y.length : ℝ)) + 1 / 10 < t))
    (h4 : x = y) :
    fsStep t k1 x k2 y seen res =
      .ok (res ++ [((k1, k2), (1 : ℝ))], ({k1, k2} : Finset String) :: seen, .fastPath) := by
  have hy0 : ¬ y.length = 0 := by simpa [List.length_eq_zero] using hy
  have hsm : (if x.length ≤ y.length then x else y) = x := if_pos hxy
  have hlg : (if x.length ≤ y.length then y else x) = y := if_pos hxy
  simp only [fsStep, if_neg h1]
  rw [hsm, hlg, if_neg hy0, if_neg h3, if_neg (not_not_intro h4)]

theorem fsStep_kept_le {t : ℝ} {k1 k2 : String} {x y : List NodeProps}
    {seen : List (Finset String)} {res : List ScoreEntry}
    (h1 : ¬(({k1, k2} : Finset String) ∈ seen ∨ k1 = k2))
    (hxy : x.length ≤ y.length) (hy : y ≠ [])
    (h3 : ¬(((x.length : ℝ) / (y.length : ℝ)) + 1 / 10 < t))
    (h4 : x ≠ y) (h5 : ¬ cosine_similarity y x < t) :
    fsStep t k1 x k2 y seen res =
      .ok (res ++ [((k1, k2), cosine_similarity y x)],
        ({k1, k2} : Finset String) :: seen, .keptScore) := by
  have hy0 : ¬ y.length = 0 := by simpa [List.length_eq_zero] using hy
  have hsm : (if x.length ≤ y.length then x else y) = x := if_pos hxy
  have hlg : (if x.length ≤ y.length then y else x) = y := if_pos hxy
  simp only [fsStep, if_neg h1]
  rw [hsm, hlg, if_neg hy0, if_neg h3, if_pos h4, if_neg h5]

/-- Shared evaluation: a pass over two resources with identical (ordered)
fingerprint lists records exactly the score 1 for the pair. -/
theorem fs_pair_same_eval (a b : String) (x : List NodeProps) (t : ℝ)
    (hab : a ≠ b) (hx : x ≠ []) (ht : t ≤ 1) :
    find_similar [(a, x), (b, x)] t = .ok [((a, b), 1)] := by
  have h1 : ¬(({a, b} : Finset String) ∈ ([] : List (Finset String)) ∨ a = b) := by
    simp [hab]
  have hx0 : (x.length : ℝ) ≠ 0 := by
    simpa [List.length_eq_zero] using hx
  have hratio : ¬(((x.length : ℝ) / (x.length : ℝ)) + 1 / 10 < t) := by
    rw [div_self hx0]
    intro hcon
    linarith
  have hstep1 : fsStep t a x a x [] [] = .ok ([], [], .seenSkip) :=
    fsStep_seen (Or.inr rfl)
  have hstep2 : fsStep t a x b x [] [] =
      .ok ([((a, b), (1 : ℝ))], [({a, b} : Finset String)], .fastPath) :=
    fsStep_fast_le h1 le_rfl hx hratio rfl
  have hstep3 : fsStep t b x a x [({a, b} : Finset String)] [((a, b), (1 : ℝ))] =
      .ok ([((a, b), (1 : ℝ))], [({a, b} : Finset String)], .seenSkip) :=
    fsStep_seen (Or.inl (by rw [Finset.pair_comm]; exact List.mem_cons_self _ _))
  have hstep4 : fsStep t b x b x [({a, b} : Finset String)] [((a, b), (1 : ℝ))] =
      .ok ([((a, b), (1 : ℝ))], [({a, b} : Finset String)], .seenSkip) :=
    fsStep_seen (Or.inr rfl)
  simp only [find_similar, fsOuter, fsInner, hstep1, hstep2, hstep3, hstep4]

/-- Case analysis on a successful loop-body step: either the pair was
skipped by the seen/identity check and the state is unchanged, or the pair's
unordered key was fresh, was pushed onto `seen`, and at most one entry (for
exactly that pair) was appended to the results. -/
theorem fsStep_cases {t : ℝ} {k1 k2 : String} {x y : List NodeProps}
    {seen seen2 : List (Finset String)} {res res2 : List ScoreEntry} {d : FsDec}
    (h : fsStep t k1 x k2 y seen res = .ok (res2, seen2, d)) :
    (res2 = res ∧ seen2 = seen) ∨
      (({k1, k2} : Finset String) ∉ seen ∧
        seen2 = ({k1, k2} : Finset String) :: seen ∧
        (res2 = res ∨ ∃ sc, res2 = res ++ [((k1, k2), sc)])) := by
  by_cases h1 : ({k1, k2} : Finset String) ∈ seen ∨ k1 = k2
  · rw [fsStep_seen h1] at h
    simp only [Except.ok.injEq, Prod.mk.injEq] at h
    exact Or.inl ⟨h.1.symm, h.2.1.symm⟩
  · have hns : ({k1, k2} : Finset String) ∉ seen := fun hmem => h1 (Or.inl hmem)
    refine Or.inr ⟨hns, ?_⟩
    simp only [fsStep, if_neg h1] at h
    repeat' split at h
    all_goals first
      | (simp only [Except.ok.injEq, Prod.mk.injEq] at h
         exact ⟨h.2.1.symm, Or.inl h.1.symm⟩)
      | (simp only [Except.ok.injEq, Prod.mk.injEq] at h
         exact ⟨h.2.1.symm, Or.inr ⟨_, h.1.symm⟩⟩)
      | exact absurd h (by simp)

theorem fsStep_invariant {t : ℝ} {k1 k2 : String} {x y : List NodeProps}
    {seen seen2 : List (Finset String)} {res res2 : List ScoreEntry} {d : FsDec}
    (h : fsStep t k1 x k2 y seen res = .ok (res2, seen2, d))
    (hinv : (res.map keysetOf).Nodup ∧ ∀ e ∈ res, keysetOf e ∈ seen) :
    ((res2.map keysetOf).Nodup ∧ ∀ e ∈ res2, keysetOf e ∈ seen2) ∧
      ∀ s ∈ seen, s ∈ seen2 := by
  rcases fsStep_cases h with ⟨rfl, rfl⟩ | ⟨hns, rfl, hres⟩
  · exact ⟨hinv, fun s hs => hs⟩
  · refine ⟨?_, fun s hs => List.mem_cons_of_mem _ hs⟩
    rcases hres with rfl | ⟨sc, rfl⟩
    · exact ⟨hinv.1, fun e he => List.mem_cons_of_mem _ (hinv.2 e he)⟩
    · constructor
      · rw [List.map_append, List.nodup_append]
        refine ⟨hinv.1, List.nodup_singleton _, ?_⟩
        intro a ha hb
        simp only [List.map_cons, List.map_nil, List.mem_singleton, keysetOf] at hb
        obtain ⟨e, he, rfl⟩ := List.mem_map.mp ha
        exact hns (hb ▸ hinv.2 e he)
      · intro e he
        rcases List.mem_append.mp he with he | he
        · exact List.mem_cons_of_mem _ (hinv.2 e he)
        · simp only [List.mem_singleton] at he
          subst he
          simp [keysetOf]

theorem fsInner_invariant {t : ℝ} {k1 : String} {x : List NodeProps} :
    ∀ (sfx : List (String × List NodeProps)) (seen seen2 : List (Finset String))
      (res res2 : List ScoreEntry),
      fsInner t k1 x sfx seen res = .ok (res2, seen2) →
      ((res.map keysetOf).Nodup ∧ ∀ e ∈ res, keysetOf e ∈ seen) →
      ((res2.map keysetOf).Nodup ∧ ∀ e ∈ res2, keysetOf e ∈ seen2) ∧
        ∀ s ∈ seen, s ∈ seen2
  | [], seen, seen2, res, res2, h, hinv => by
    simp only [fsInner, Except.ok.injEq, Prod.mk.injEq] at h
    obtain ⟨rfl, rfl⟩ := h
    exact ⟨hinv, fun s hs => hs⟩
  | (k2, y) :: rest, seen, seen2, res, res2, h, hinv => by
    rw [fsInner] at h
    rcases hstep : fsStep t k1 x k2 y seen res with e | ⟨r2, s2, d⟩
    · rw [hstep] at h
      exact absurd h (by simp)
    · rw [hstep] at h
      obtain ⟨hmid, hsub⟩ := fsStep_invariant hstep hinv
      obtain ⟨hfin, hsub2⟩ := fsInner_invariant rest s2 seen2 r2 res2 h hmid
      exact ⟨hfin, fun s hs => hsub2 s (hsub s hs)⟩

theorem fsOuter_invariant {t : ℝ} {items : List (String × List NodeProps)} :
    ∀ (sfx : List (String × List NodeProps)) (seen seen2 : List (Finset String))
      (res res2 : List ScoreEntry),
      fsOuter t items sfx seen res = .ok (res2, seen2) →
      ((res.map keysetOf).Nodup ∧ ∀ e ∈ res, keysetOf e ∈ seen) →
      ((res2.map keysetOf).Nodup ∧ ∀ e ∈ res2, keysetOf e ∈ seen2) ∧
        ∀ s ∈ seen, s ∈ seen2
  | [], seen, seen2, res, res2, h, hinv => by
    simp only [fsOuter, Except.ok.injEq, Prod.mk.injEq] at h
    obtain ⟨rfl, rfl⟩ := h
    exact ⟨hinv, fun s hs => hs⟩
  | (k1, x) :: rest, seen, seen2, res, res2, h, hinv => by
    rw [fsOuter] at h
    rcases hin : fsInner t k1 x items seen res with e | ⟨r2, s2⟩
    · rw [hin] at h
      exact absurd h (by simp)
    · rw [hin] at h
      obtain ⟨hmid, hsub⟩ := fsInner_invariant items seen s2 res r2 hin hinv
      obtain ⟨hfin, hsub2⟩ := fsOuter_invariant rest s2 seen2 r2 res2 h hmid
      exact ⟨hfin, fun s hs => hsub2 s (hsub s hs)⟩

theorem scoreLookup_comm (res : List ScoreEntry) (a b : String) :
    scoreLookup res a b = scoreLookup res b a := by
  simp only [scoreLookup]
  rw [show (fun e : ScoreEntry => decide (e.1 = (a, b) ∨ e.1 = (b, a))) =
    (fun e : ScoreEntry => decide (e.1 = (b, a) ∨ e.1 = (a, b))) from
    funext fun e => decide_eq_decide.mpr or_comm]

/-! ### C1 -/

set_option maxRecDepth 8000 in
/-- C1: the claim fails on the code.  With two disjoint qualifying triangles
(a, b, c pairwise at 0.9 and d, e, f pairwise at 0.87, grouping threshold
0.85), the clustering graph has the two expected connected components, but
`process` returns a single merged group keyed by `tuple(G)` — all six
clustered resources — carrying the last component's mean (87.0), instead of
one merged group per component.  The single-component instance (Scenario D:
one triangle at 0.9) does come out as the claim describes: one cluster of
all three with displayed score 90.0. -/
theorem C1_merged_groups_collapse_to_tuple_G :
    process c1Results (17 / 20 : ℚ) = ([], [(["a", "b", "c", "d", "e", "f"], 87)]) ∧
    componentsOf (clusterGraphOf (cliquesOf c1Results) (pyRound2 (17 / 20 : ℚ))) =
      [["a", "b", "c"], ["d", "e", "f"]] ∧
    process cScenarioD (17 / 20 : ℚ) = ([], [(["a", "b", "c"], 90)]) :=
  ⟨by decide, by decide, by decide⟩

/-! ### C2 -/

/-- C2: counterexample.  Merging a single confirmed group with two junk
members interleaves remap and removal — the trace contains the removal of
the first junk resource before the remap of the second, so removal is not a
single batch at the end. -/
theorem C2_counterexample :
    merge_ids [["t", "a", "b"]] =
      some (2, [.remap "a" "t", .removeId "a", .remap "b" "t", .removeId "b"]) ∧
    noRemovalThenRemap
      [.remap "a" "t", .removeId "a", .remap "b" "t", .removeId "b"] = false :=
  ⟨by decide, by decide⟩

/-- C2 (amended): in any successful merge, the trace consists of adjacent
remap/remove pairs — every junk resource is remapped onto its survivor
immediately before that same resource is removed, so no resource is ever
removed before its own remap, but removals are interleaved with remaps
rather than batched at the end. -/
theorem C2_remap_immediately_precedes_own_removal :
    ∀ (ids : List (List String)) (n : Nat) (tr : List MergeEv),
      merge_ids ids = some (n, tr) → pairedTrace tr = true
  | [], _, _, h => by
    simp only [merge_ids, Option.some.injEq, Prod.mk.injEq] at h
    rw [← h.2]
    rfl
  | [] :: _, _, _, h => by simp [merge_ids] at h
  | (target :: junk) :: rest, n, tr, h => by
    rcases hr : merge_ids rest with _ | ⟨n0, tr0⟩
    · rw [merge_ids, hr] at h
      exact absurd h (by simp)
    · rw [merge_ids, hr] at h
      simp only [Option.some.injEq, Prod.mk.injEq] at h
      rw [← h.2]
      exact pairedTrace_append _ _ (pairedTrace_block target junk)
        (C2_remap_immediately_precedes_own_removal rest n0 tr0 hr)

/-- C2 (witness): the amended statement applied to one group with a single
junk member. -/
theorem C2_witness :
    pairedTrace [.remap "a" "t", .removeId "a"] = true :=
  C2_remap_immediately_precedes_own_removal [["t", "a"]] 1
    [.remap "a" "t", .removeId "a"] (by decide)

/-! ### C3 -/

theorem cos_c3_eval : cosine_similarity [cP, cQ] [cQ, cP] = 6 / Real.sqrt 42 := by
  have h1 : s1Of [cP, cQ] = 7 := by decide
  have h2 : s2Of [cP, cQ] [cQ, cP] = 6 := by decide
  simp only [cosine_similarity, h1, h2]
  norm_num

theorem c3_score_facts :
    ¬ (6 / Real.sqrt 42 : ℝ) < 1 / 2 ∧ (6 / Real.sqrt 42 : ℝ) ≠ 1 := by
  have hpos : (0 : ℝ) < Real.sqrt 42 := Real.sqrt_pos.mpr (by norm_num)
  have hsq : Real.sqrt 42 ^ 2 = 42 := Real.sq_sqrt (by norm_num)
  constructor
  · intro hcon
    rw [div_lt_iff₀ hpos] at hcon
    nlinarith
  · intro hcon
    rw [div_eq_one_iff_eq hpos.ne'] at hcon
    nlinarith

/-- C3: counterexample.  The two resources hold the same two fingerprints in
different orders (equal as unordered multisets), yet the pass does not take
the fast path — the equality check `x != y` compares ordered lists — and the
greedy pairing inside the scorer mis-pairs the nodes, recording the score
6 / sqrt 42 (about 0.926), which is not 1. -/
theorem C3_counterexample :
    find_similar c3Contents (1 / 2) = .ok [(("k1", "k2"), 6 / Real.sqrt 42)] ∧
    (([cQ, cP] : List NodeProps) : Multiset NodeProps) =
      (([cP, cQ] : List NodeProps) : Multiset NodeProps) ∧
    (6 / Real.sqrt 42 : ℝ) ≠ 1 := by
  refine ⟨?_, Multiset.coe_eq_coe.mpr (List.Perm.swap cP cQ []), c3_score_facts.2⟩
  have h1 : ¬(({"k1", "k2"} : Finset String) ∈ ([] : List (Finset String)) ∨
      ("k1" : String) = "k2") := by simp
  have h5 : ¬ cosine_similarity [cP, cQ] [cQ, cP] < 1 / 2 := by
    rw [cos_c3_eval]; exact c3_score_facts.1
  have hstep1 : fsStep (1 / 2) "k1" [cQ, cP] "k1" [cQ, cP] [] [] =
      .ok ([], [], .seenSkip) := fsStep_seen (Or.inr rfl)
  have hstep2 : fsStep (1 / 2) "k1" [cQ, cP] "k2" [cP, cQ] [] [] =
      .ok ([(("k1", "k2"), 6 / Real.sqrt 42)],
        [({"k1", "k2"} : Finset String)], .keptScore) := by
    have h : fsStep (1 / 2) "k1" [cQ, cP] "k2" [cP, cQ] [] [] =
        .ok ([(("k1", "k2"), cosine_similarity [cP, cQ] [cQ, cP])],
          [({"k1", "k2"} : Finset String)], .keptScore) :=
      fsStep_kept_le h1 (by decide) (by decide)
        (by norm_num [cP, cQ]) (by decide) h5
    rwa [cos_c3_eval] at h
  have hstep3 : fsStep (1 / 2) "k2" [cP, cQ] "k1" [cQ, cP]
      [({"k1", "k2"} : Finset String)]
      [(("k1", "k2"), 6 / Real.sqrt 42)] =
      .ok ([(("k1", "k2"), 6 / Real.sqrt 42)],
        [({"k1", "k2"} : Finset String)], .seenSkip) :=
    fsStep_seen (Or.inl (by rw [Finset.pair_comm]; exact List.mem_cons_self _ _))
  have hstep4 : fsStep (1 / 2) "k2" [cP, cQ] "k2" [cP, cQ]
      [({"k1", "k2"} : Finset String)]
      [(("k1", "k2"), 6 / Real.sqrt 42)] =
      .ok ([(("k1", "k2"), 6 / Real.sqrt 42)],
        [({"k1", "k2"} : Finset String)], .seenSkip) := fsStep_seen (Or.inr rfl)
  simp only [c3Contents, find_similar, fsOuter, fsInner,
    hstep1, hstep2, hstep3, hstep4]

/-- C3 (amended): the fast path of the comparison pass fires on equality of
the two fingerprint collections as ordered lists (the source compares the
Python lists directly, without sorting): two resources with identical
ordered fingerprint lists are recorded with score exactly 1.  Multiset
equality alone does not guarantee a recorded score of 1. -/
theorem C3_ordered_equality_fast_path (a b : String) (x : List NodeProps) (t : ℝ)
    (hab : a ≠ b) (hx : x ≠ []) (ht : t ≤ 1) :
    find_similar [(a, x), (b, x)] t = .ok [((a, b), 1)] :=
  fs_pair_same_eval a b x t hab hx ht

/-- C3 (witness): two single-node resources with the same fingerprint list
score exactly 1. -/
theorem C3_witness :
    find_similar [("u", [pA]), ("v", [pA])] (1 / 2) = .ok [(("u", "v"), 1)] :=
  C3_ordered_equality_fast_path "u" "v" [pA] (1 / 2) (by decide) (by decide) (by norm_num)

/-! ### C4 -/

/-- C4: in any successful comparison pass, the unordered key sets of the
recorded entries are pairwise distinct — each unordered pair's score is
stored at most once, never under both orientations — and the score
associated to an unordered pair (looked up in either orientation) is
symmetric in the two resource names. -/
theorem C4_scores_stored_once_and_symmetric
    (contents : List (String × List NodeProps)) (t : ℝ) (res : List ScoreEntry)
    (h : find_similar contents t = .ok res) :
    (res.map keysetOf).Nodup ∧
      ∀ a b, scoreLookup res a b = scoreLookup res b a := by
  refine ⟨?_, fun a b => scoreLookup_comm res a b⟩
  rw [find_similar] at h
  rcases houter : fsOuter t contents contents [] [] with e | ⟨r2, s2⟩
  · rw [houter] at h
    exact absurd h (by simp)
  · rw [houter] at h
    simp only [Except.ok.injEq] at h
    subst h
    exact (fsOuter_invariant contents [] s2 [] _ houter
      ⟨List.nodup_nil, by simp⟩).1.1

/-- C4 (witness): the theorem applied to the pass over two equal single-node
resources, which records exactly one entry. -/
theorem C4_witness :
    (([(("u", "v"), (1 : ℝ))] : List ScoreEntry).map keysetOf).Nodup ∧
      ∀ a b, scoreLookup [(("u", "v"), (1 : ℝ))] a b =
        scoreLookup [(("u", "v"), (1 : ℝ))] b a :=
  C4_scores_stored_once_and_symmetric [("u", [pA]), ("v", [pA])] (1 / 2)
    [(("u", "v"), (1 : ℝ))]
    (fs_pair_same_eval "u" "v" [pA] (1 / 2) (by decide) (by decide) (by norm_num))

/-! ### C5 -/

theorem cos_c5_eval : cosine_similarity [q1Small, q2Small] [pBig] = 2 / Real.sqrt 6 := by
  have h1 : s1Of [q1Small, q2Small] = 3 := by decide
  have h2 : s2Of [q1Small, q2Small] [pBig] = 2 := by decide
  simp only [cosine_similarity, h1, h2]
  norm_num

theorem c5_score_fact : ¬ (2 / Real.sqrt 6 : ℝ) < 3 / 5 := by
  have hpos : (0 : ℝ) < Real.sqrt 6 := Real.sqrt_pos.mpr (by norm_num)
  have hsq : Real.sqrt 6 ^ 2 = 6 := Real.sq_sqrt (by norm_num)
  intro hcon
  rw [div_lt_iff₀ hpos] at hcon
  nlinarith

/-- C5: counterexample.  The cheap rejection divides the numbers of
fingerprints (1 and 2 here), not the total field counts (12 and 5): by the
claim's total-field-count ratio (5/12 + 0.1 < 0.6) the pair would be skipped
and treated as dissimilar, but the code proceeds, scores the pair at
2 / sqrt 6 (about 0.816) and records it. -/
theorem C5_counterexample :
    find_similar c5Contents (3 / 5) = .ok [(("k1", "k2"), 2 / Real.sqrt 6)] ∧
    ((min (totalFieldCount [pBig]) (totalFieldCount [q1Small, q2Small]) : ℝ) /
      (max (totalFieldCount [pBig]) (totalFieldCount [q1Small, q2Small])) + 1 / 10
        < 3 / 5) := by
  constructor
  · have h1 : ¬(({"k1", "k2"} : Finset String) ∈ ([] : List (Finset String)) ∨
        ("k1" : String) = "k2") := by simp
    have h5 : ¬ cosine_similarity [q1Small, q2Small] [pBig] < 3 / 5 := by
      rw [cos_c5_eval]; exact c5_score_fact
    have hstep1 : fsStep (3 / 5) "k1" [pBig] "k1" [pBig] [] [] =
        .ok ([], [], .seenSkip) := fsStep_seen (Or.inr rfl)
    have hstep2 : fsStep (3 / 5) "k1" [pBig] "k2" [q1Small, q2Small] [] [] =
        .ok ([(("k1", "k2"), 2 / Real.sqrt 6)],
          [({"k1", "k2"} : Finset String)], .keptScore) := by
      have h : fsStep (3 / 5) "k1" [pBig] "k2" [q1Small, q2Small] [] [] =
          .ok ([(("k1", "k2"), cosine_similarity [q1Small, q2Small] [pBig])],
            [({"k1", "k2"} : Finset String)], .keptScore) :=
        fsStep_kept_le h1 (by decide) (by decide)
          (by norm_num [pBig, q1Small, q2Small]) (by decide) h5
      rwa [cos_c5_eval] at h
    have hstep3 : fsStep (3 / 5) "k2" [q1Small, q2Small] "k1" [pBig]
        [({"k1", "k2"} : Finset String)]
        [(("k1", "k2"), 2 / Real.sqrt 6)] =
        .ok ([(("k1", "k2"), 2 / Real.sqrt 6)],
          [({"k1", "k2"} : Finset String)], .seenSkip) :=
      fsStep_seen (Or.inl (by rw [Finset.pair_comm]; exact List.mem_cons_self _ _))
    have hstep4 : fsStep (3 / 5) "k2" [q1Small, q2Small] "k2" [q1Small, q2Small]
        [({"k1", "k2"} : Finset String)]
        [(("k1", "k2"), 2 / Real.sqrt 6)] =
        .ok ([(("k1", "k2"), 2 / Real.sqrt 6)],
          [({"k1", "k2"} : Finset String)], .seenSkip) := fsStep_seen (Or.inr rfl)
    simp only [c5Contents, find_similar, fsOuter, fsInner,
      hstep1, hstep2, hstep3, hstep4]
  · norm_num [totalFieldCount, pBig, q1Small, q2Small]

/-- C5 (amended): for a fresh pair of distinct resources, the loop body
skips the pair without invoking the scorer (the ratio-skip branch, leaving
the results unchanged) exactly when the ratio of the numbers of fingerprints
(smaller over larger collection length) plus the 0.1 margin is below the
similarity threshold. -/
theorem C5_skip_iff_fingerprint_count_ratio (t : ℝ) (k1 k2 : String)
    (x y : List NodeProps) (seen : List (Finset String)) (res : List ScoreEntry)
    (h1 : ¬(({k1, k2} : Finset String) ∈ seen ∨ k1 = k2))
    (h2 : ¬ (if x.length ≤ y.length then y else x).length = 0) :
    fsStep t k1 x k2 y seen res =
        .ok (res, ({k1, k2} : Finset String) :: seen, .ratioSkip) ↔
      (((min x.length y.length : ℕ) : ℝ) / ((max x.length y.length : ℕ) : ℝ)
        + 1 / 10 < t) := by
  have hsm : (if x.length ≤ y.length then x else y).length = min x.length y.length := by
    rcases le_or_lt x.length y.length with h | h
    · rw [if_pos h, min_eq_left h]
    · rw [if_neg (not_le.mpr h), min_eq_right h.le]
  have hlg : (if x.length ≤ y.length then y else x).length = max x.length y.length := by
    rcases le_or_lt x.length y.length with h | h
    · rw [if_pos h, max_eq_right h]
    · rw [if_neg (not_le.mpr h), max_eq_left h.le]
  simp only [fsStep, if_neg h1, hsm, hlg] at h2 ⊢
  rw [if_neg h2]
  by_cases hr : (((min x.length y.length : ℕ) : ℝ) / ((max x.length y.length : ℕ) : ℝ)
    + 1 / 10 < t)
  · rw [if_pos hr]
    exact iff_of_true rfl hr
  · rw [if_neg hr]
    refine iff_of_false ?_ hr
    by_cases hxy : x = y
    · rw [if_neg (not_not_intro hxy)]
      simp
    · rw [if_pos hxy]
      by_cases hc : cosine_similarity (if x.length ≤ y.length then y else x)
          (if x.length ≤ y.length then x else y) < t
      · rw [if_pos hc]
        simp
      · rw [if_neg hc]
        simp

/-- C5 (witness): an empty collection against a one-node collection with
threshold 1 is ratio-skipped (0/1 + 0.1 < 1). -/
theorem C5_witness :
    fsStep 1 "u" ([] : List NodeProps) "v" [pA] [] [] =
      .ok ([], [({"u", "v"} : Finset String)], .ratioSkip) :=
  (C5_skip_iff_fingerprint_count_ratio 1 "u" "v" [] [pA] [] []
    (by simp) (by decide)).mpr (by norm_num)

/-! ### C8 -/

/-- C8: counterexample.  When two distinct resources both have empty
fingerprint collections, the comparison pass itself divides by zero at the
cheap length-ratio rejection (`len(smallest) / len(largest)` with both
lengths 0) before the scorer — whose own division by zero is caught — is
ever reached: the pass raises instead of recording 0. -/
theorem C8_counterexample :
    find_similar [("a", ([] : List NodeProps)), ("b", [])] (1 / 2) = .error () := by
  have h1 : ¬(({"a", "b"} : Finset String) ∈ ([] : List (Finset String)) ∨
      ("a" : String) = "b") := by simp
  have hstep1 : fsStep (1 / 2) "a" ([] : List NodeProps) "a" [] [] [] =
      .ok ([], [], .seenSkip) := fsStep_seen (Or.inr rfl)
  have hstep2 : fsStep (1 / 2) "a" ([] : List NodeProps) "b" [] [] [] =
      .error () := fsStep_err h1 rfl rfl
  simp only [find_similar, fsOuter, fsInner, hstep1, hstep2]

theorem largest_length_zero_iff {x y : List NodeProps} :
    (if x.length ≤ y.length then y else x).length = 0 ↔ x = [] ∧ y = [] := by
  rcases le_or_lt x.length y.length with hle | hlt
  · rw [if_pos hle]
    constructor
    · intro h0
      have hx : x.length = 0 := Nat.le_antisymm (h0 ▸ hle) (Nat.zero_le _)
      exact ⟨List.length_eq_zero.mp hx, List.length_eq_zero.mp h0⟩
    · rintro ⟨rfl, rfl⟩
      rfl
  · rw [if_neg (not_le.mpr hlt)]
    constructor
    · intro h0
      exact absurd (h0 ▸ hlt) (Nat.not_lt_zero _)
    · rintro ⟨rfl, rfl⟩
      rfl

/-- The loop body raises (the uncaught `ZeroDivisionError` of the cheap
rejection) exactly on a fresh pair of distinct keys whose fingerprint
collections are both empty. -/
theorem fsStep_error_iff {t : ℝ} {k1 k2 : String} {x y : List NodeProps}
    {seen : List (Finset String)} {res : List ScoreEntry} :
    fsStep t k1 x k2 y seen res = .error () ↔
      ¬(({k1, k2} : Finset String) ∈ seen ∨ k1 = k2) ∧ x = [] ∧ y = [] := by
  constructor
  · intro h
    by_cases h1 : ({k1, k2} : Finset String) ∈ seen ∨ k1 = k2
    · rw [fsStep_seen h1] at h
      exact absurd h (by simp)
    · refine ⟨h1, ?_⟩
      by_cases h0 : (if x.length ≤ y.length then y else x).length = 0
      · exact largest_length_zero_iff.mp h0
      · simp only [fsStep, if_neg h1] at h
        rw [if_neg h0] at h
        repeat' split at h
        all_goals exact absurd h (by simp)
  · rintro ⟨h1, rfl, rfl⟩
    exact fsStep_err h1 rfl rfl

theorem fsInner_error_mem {t : ℝ} {k1 : String} {x : List NodeProps} :
    ∀ (sfx : List (String × List NodeProps)) (seen : List (Finset String))
      (res : List ScoreEntry),
      fsInner t k1 x sfx seen res = .error () →
      x = [] ∧ ∃ p ∈ sfx, p.2 = ([] : List NodeProps) ∧ k1 ≠ p.1
  | [], seen, res, h => by simp [fsInner] at h
  | (k2, y) :: rest, seen, res, h => by
    rw [fsInner] at h
    rcases hstep : fsStep t k1 x k2 y seen res with e | ⟨r2, s2, d⟩
    · cases e
      obtain ⟨h1, rfl, rfl⟩ := fsStep_error_iff.mp hstep
      exact ⟨rfl, (k2, []), List.mem_cons_self _ _, rfl, fun hk => h1 (Or.inr hk)⟩
    · rw [hstep] at h
      obtain ⟨hx, p, hp, hpe, hpk⟩ := fsInner_error_mem rest s2 r2 h
      exact ⟨hx, p, List.mem_cons_of_mem _ hp, hpe, hpk⟩

theorem fsOuter_error_mem {t : ℝ} {items : List (String × List NodeProps)} :
    ∀ (sfx : List (String × List NodeProps)) (seen : List (Finset String))
      (res : List ScoreEntry),
      fsOuter t items sfx seen res = .error () →
      ∃ p ∈ sfx, ∃ q ∈ items, p.2 = ([] : List NodeProps) ∧
        q.2 = ([] : List NodeProps) ∧ p.1 ≠ q.1
  | [], seen, res, h => by simp [fsOuter] at h
  | (k1, x) :: rest, seen, res, h => by
    rw [fsOuter] at h
    rcases hin : fsInner t k1 x items seen res with e | ⟨r2, s2⟩
    · cases e
      obtain ⟨hx, q, hq, hqe, hqk⟩ := fsInner_error_mem items seen res hin
      exact ⟨(k1, x), List.mem_cons_self _ _, q, hq, hx, hqe, hqk⟩
    · rw [hin] at h
      obtain ⟨p, hp, hrest⟩ := fsOuter_error_mem rest s2 r2 h
      exact ⟨p, List.mem_cons_of_mem _ hp, hrest⟩

theorem two_le_filter_length {γ : Type} {l : List γ} {f : γ → Bool} {p q : γ}
    (hp : p ∈ l) (hq : q ∈ l) (hne : p ≠ q) (hfp : f p = true) (hfq : f q = true) :
    2 ≤ (l.filter f).length := by
  have hp2 : p ∈ l.filter f := List.mem_filter.mpr ⟨hp, hfp⟩
  have hq2 : q ∈ l.filter f := List.mem_filter.mpr ⟨hq, hfq⟩
  rcases hl : l.filter f with _ | ⟨a, rest⟩
  · rw [hl] at hp2
    simp at hp2
  · rcases rest with _ | ⟨b, r2⟩
    · rw [hl] at hp2 hq2
      simp only [List.mem_singleton] at hp2 hq2
      exact absurd (hp2.trans hq2.symm) hne
    · simp only [List.length_cons]
      omega

theorem fsStep_seen_superset {t : ℝ} {k1 k2 : String} {x y : List NodeProps}
    {seen s2 : List (Finset String)} {res r2 : List ScoreEntry} {d : FsDec}
    (h : fsStep t k1 x k2 y seen res = .ok (r2, s2, d)) :
    ∀ sk ∈ s2, sk ∈ seen ∨ sk = ({k1, k2} : Finset String) := by
  rcases fsStep_cases h with ⟨_, rfl⟩ | ⟨_, rfl, _⟩
  · exact fun sk hsk => Or.inl hsk
  · intro sk hsk
    rcases List.mem_cons.mp hsk with rfl | hsk
    · exact Or.inr rfl
    · exact Or.inl hsk

theorem fsInner_seen_superset {t : ℝ} {k1 : String} {x : List NodeProps} :
    ∀ (sfx : List (String × List NodeProps)) (seen s2 : List (Finset String))
      (res r2 : List ScoreEntry),
      fsInner t k1 x sfx seen res = .ok (r2, s2) →
      ∀ sk ∈ s2, sk ∈ seen ∨ ∃ k2, sk = ({k1, k2} : Finset String)
  | [], seen, s2, res, r2, h => by
    simp only [fsInner, Except.ok.injEq, Prod.mk.injEq] at h
    obtain ⟨rfl, rfl⟩ := h
    exact fun sk hsk => Or.inl hsk
  | (k2, y) :: rest, seen, s2, res, r2, h => by
    rw [fsInner] at h
    rcases hstep : fsStep t k1 x k2 y seen res with e | ⟨rm, sm, d⟩
    · rw [hstep] at h
      exact absurd h (by simp)
    · rw [hstep] at h
      intro sk hsk
      rcases fsInner_seen_superset rest sm s2 rm r2 h sk hsk with hin | hex
      · rcases fsStep_seen_superset hstep sk hin with hin2 | rfl
        · exact Or.inl hin2
        · exact Or.inr ⟨k2, rfl⟩
      · exact Or.inr hex

/-- If some later inner item is the (unique) empty entry of a key `b`
distinct from the outer key `a`, whose own collection is empty, the inner
loop reaches that pair and raises. -/
theorem fsInner_hits_empty_pair {t : ℝ} {a b : String} (hab : a ≠ b) :
    ∀ (sfx : List (String × List NodeProps)) (seen : List (Finset String))
      (res : List ScoreEntry),
      (b, ([] : List NodeProps)) ∈ sfx →
      (∀ y0, (b, y0) ∈ sfx → y0 = []) →
      ({a, b} : Finset String) ∉ seen →
      fsInner t a [] sfx seen res = .error ()
  | [], seen, res, hmem, _, _ => absurd hmem (by simp)
  | (k2, y) :: rest, seen, res, hmem, hall, hseen => by
    rw [fsInner]
    by_cases hk : k2 = b
    · subst hk
      have hy : y = [] := hall y (List.mem_cons_self _ _)
      subst hy
      rw [fsStep_err (fun hor => hor.elim hseen hab) rfl rfl]
    · rcases hstep : fsStep t a [] k2 y seen res with e | ⟨r2, s2, d⟩
      · cases e
        rfl
      · have hmem2 : (b, ([] : List NodeProps)) ∈ rest := by
          rcases List.mem_cons.mp hmem with heq | hmem2
          · exact absurd (congrArg Prod.fst heq).symm hk
          · exact hmem2
        refine fsInner_hits_empty_pair hab rest s2 r2 hmem2
          (fun y0 hy0 => hall y0 (List.mem_cons_of_mem _ hy0)) ?_
        intro hc
        rcases fsStep_seen_superset hstep _ hc with hc2 | hc2
        · exact hseen hc2
        · have hbmem : b ∈ ({a, k2} : Finset String) := by
            rw [← hc2]
            simp
          rcases Finset.mem_insert.mp hbmem with hba | hbk
          · exact hab hba.symm
          · exact hk (Finset.mem_singleton.mp hbk).symm

/-- With two distinct keys `a`, `b` in the item list, both of whose entries
are empty, the outer loop raises once it reaches whichever of them comes
first. -/
theorem fsOuter_hits_error {t : ℝ} {a b : String}
    {items : List (String × List NodeProps)} (hab : a ≠ b)
    (haitems : (a, ([] : List NodeProps)) ∈ items)
    (hbitems : (b, ([] : List NodeProps)) ∈ items)
    (halla : ∀ y0, (a, y0) ∈ items → y0 = [])
    (hallb : ∀ y0, (b, y0) ∈ items → y0 = []) :
    ∀ (sfx : List (String × List NodeProps)) (seen : List (Finset String))
      (res : List ScoreEntry),
      (∀ p ∈ sfx, p ∈ items) →
      (a, ([] : List NodeProps)) ∈ sfx →
      ({a, b} : Finset String) ∉ seen →
      fsOuter t items sfx seen res = .error ()
  | [], seen, res, _, hmem, _ => absurd hmem (by simp)
  | (k1, x) :: rest, seen, res, hsub, hmem, hseen => by
    rw [fsOuter]
    by_cases hk1a : k1 = a
    · subst hk1a
      have hx : x = [] := halla x (hsub _ (List.mem_cons_self _ _))
      subst hx
      rw [fsInner_hits_empty_pair hab items seen res hbitems hallb hseen]
    · by_cases hk1b : k1 = b
      · subst hk1b
        have hx : x = [] := hallb x (hsub _ (List.mem_cons_self _ _))
        subst hx
        rw [fsInner_hits_empty_pair (Ne.symm hab) items seen res haitems halla
          (by rwa [Finset.pair_comm])]
      · rcases hin : fsInner t k1 x items seen res with e | ⟨r2, s2⟩
        · cases e
          rfl
        · have hmem2 : (a, ([] : List NodeProps)) ∈ rest := by
            rcases List.mem_cons.mp hmem with heq | hmem2
            · exact absurd (congrArg Prod.fst heq).symm hk1a
            · exact hmem2
          refine fsOuter_hits_error hab haitems hbitems halla hallb rest s2 r2
            (fun p hp => hsub p (List.mem_cons_of_mem _ hp)) hmem2 ?_
          intro hc
          rcases fsInner_seen_superset items seen s2 res r2 hin _ hc with hc2 | ⟨k2, hc2⟩
          · exact hseen hc2
          · have hk1mem : k1 ∈ ({a, b} : Finset String) := by
              rw [hc2]
              simp
            rcases Finset.mem_insert.mp hk1mem with h | h
            · exact hk1a h
            · exact hk1b (Finset.mem_singleton.mp h)

theorem nodup_key_unique {γ : Type} :
    ∀ {l : List (String × γ)}, (l.map Prod.fst).Nodup →
      ∀ {k : String} {v w : γ}, (k, v) ∈ l → (k, w) ∈ l → v = w
  | [], _, _, _, _, hv, _ => absurd hv (by simp)
  | e :: rest, hnodup, k, v, w, hv, hw => by
    simp only [List.map_cons, List.nodup_cons] at hnodup
    rcases List.mem_cons.mp hv with rfl | hv2
    · rcases List.mem_cons.mp hw with heq | hw2
      · exact (congrArg Prod.snd heq).symm
      · exact absurd (List.mem_map.mpr ⟨(k, w), hw2, rfl⟩) hnodup.1
    · rcases List.mem_cons.mp hw with rfl | hw2
      · exact absurd (List.mem_map.mpr ⟨(k, v), hv2, rfl⟩) hnodup.1
      · exact nodup_key_unique hnodup.2 hv2 hw2

/-- C8 (amended): the scorer itself returns 0 whenever either normalization
factor is zero (its `ZeroDivisionError` is caught), but the comparison pass
as a whole is not division-free: with distinct resource names it raises a
division-by-zero error precisely when at least two distinct resources have
empty fingerprint collections — the uncaught division in the cheap
length-ratio rejection, reached before the scorer. -/
theorem C8_scorer_zero_but_pass_divides :
    (∀ x y : List NodeProps, s1Of x = 0 ∨ s2Of x y = 0 → cosine_similarity x y = 0) ∧
    ∀ (contents : List (String × List NodeProps)) (t : ℝ),
      (contents.map Prod.fst).Nodup →
      (find_similar contents t = .error () ↔
        2 ≤ (contents.filter (fun e => e.2.isEmpty)).length) := by
  constructor
  · intro x y h
    simp only [cosine_similarity, if_pos h]
  · intro contents t hnodup
    constructor
    · intro herr
      rw [find_similar] at herr
      rcases houter : fsOuter t contents contents [] [] with e | ⟨r2, s2⟩
      · cases e
        obtain ⟨p, hp, q, hq, hpe, hqe, hpq⟩ := fsOuter_error_mem contents [] [] houter
        refine two_le_filter_length hp hq ?_ ?_ ?_
        · intro hcon
          exact hpq (congrArg Prod.fst hcon)
        · simp [hpe]
        · simp [hqe]
      · rw [houter] at herr
        exact absurd herr (by simp)
    · intro hcount
      rcases hfl : contents.filter (fun e => e.2.isEmpty) with _ | ⟨p, rest⟩
      · rw [hfl] at hcount
        simp at hcount
      · rcases rest with _ | ⟨q, r2⟩
        · rw [hfl] at hcount
          simp at hcount
        · have hpf : p ∈ contents.filter (fun e => e.2.isEmpty) := by
            rw [hfl]
            exact List.mem_cons_self _ _
          have hqf : q ∈ contents.filter (fun e => e.2.isEmpty) := by
            rw [hfl]
            exact List.mem_cons_of_mem _ (List.mem_cons_self _ _)
          have hp : p ∈ contents := (List.mem_filter.mp hpf).1
          have hq : q ∈ contents := (List.mem_filter.mp hqf).1
          have hpe : p.2 = [] := by
            simpa using (List.mem_filter.mp hpf).2
          have hqe : q.2 = [] := by
            simpa using (List.mem_filter.mp hqf).2
          have hfnodup : ((contents.filter (fun e => e.2.isEmpty)).map Prod.fst).Nodup :=
            ((List.filter_sublist _).map Prod.fst).nodup hnodup
          have hpq : p.1 ≠ q.1 := by
            rw [hfl] at hfnodup
            simp only [List.map_cons, List.nodup_cons, List.mem_cons] at hfnodup
            exact fun hcon => hfnodup.1 (Or.inl hcon)
          have hp2 : (p.1, ([] : List NodeProps)) ∈ contents := by
            rwa [show (p.1, ([] : List NodeProps)) = p from Prod.ext rfl hpe.symm]
          have hq2 : (q.1, ([] : List NodeProps)) ∈ contents := by
            rwa [show (q.1, ([] : List NodeProps)) = q from Prod.ext rfl hqe.symm]
          have halla : ∀ y0, (p.1, y0) ∈ contents → y0 = [] :=
            fun y0 hy0 => nodup_key_unique hnodup hy0 hp2
          have hallb : ∀ y0, (q.1, y0) ∈ contents → y0 = [] :=
            fun y0 hy0 => nodup_key_unique hnodup hy0 hq2
          rw [find_similar, fsOuter_hits_error hpq hp2 hq2 halla hallb contents [] []
            (fun x hx => hx) hp2 (by simp)]

set_option maxRecDepth 2000 in
/-- C8 (witness): the amended iff applied to three resources of which
exactly two (with distinct names) have empty collections: the pass raises. -/
theorem C8_witness :
    find_similar [("a", ([] : List NodeProps)), ("b", []), ("c", [pA])] 0 =
      .error () :=
  (C8_scorer_zero_but_pass_divides.2
    [("a", ([] : List NodeProps)), ("b", []), ("c", [pA])] 0 (by decide)).mpr
    (by decide)

/-! ### C6 -/

/-- C6: the claim fails on the code.  For a link leaving a reroute whose
input socket has no incoming link (a dead-ended chain),
`get_precomputed_root_link` raises an uncaught `KeyError` — its `try` only
catches `IndexError`, while the miss in the precomputed `links` dict raises
`KeyError` — instead of falling back to the unresolved link, which is what
the sibling `get_root_link` does on the very same input. -/
theorem C6_precomputed_dead_end_raises :
    get_precomputed_root_link c6Env 9 c6Link = .error .keyErr ∧
    get_root_link c6Env 9 c6Link = .ok c6Link :=
  ⟨rfl, rfl⟩

/-! ### C7 -/

theorem sinsert_length {α : Type} (le : α → α → Bool) (x : α) :
    ∀ l : List α, (sinsert le x l).length = l.length + 1
  | [] => rfl
  | y :: ys => by
    simp only [sinsert]
    split
    · rfl
    · simp [sinsert_length le x ys]

theorem ssort_length {α : Type} (le : α → α → Bool) :
    ∀ l : List α, (ssort le l).length = l.length
  | [] => rfl
  | x :: xs => by simp [ssort, sinsert_length, ssort_length le xs]

theorem find_cliques_nonempty {es : List (String × String)} :
    ∀ c ∈ find_cliques es, c ≠ [] := by
  intro c hc hcon
  simp only [find_cliques, List.mem_map] at hc
  obtain ⟨c0, hc0, rfl⟩ := hc
  have h1 := (List.mem_filter.mp hc0).2
  have h2 : c0.length = 0 := by
    rw [← ssort_length strLe c0, hcon]
    rfl
  rw [List.length_eq_zero.mp h2] at h1
  simp at h1

theorem cliques_groups_nonempty {α : Type} [LinearOrderedField α] [FloorRing α]
    (results : List ((String × String) × α)) :
    ∀ gs ∈ cliquesOf results, gs.1 ≠ [] := by
  intro gs hgs
  simp only [cliquesOf, List.mem_flatten, List.mem_map] at hgs
  obtain ⟨l, ⟨sg, hsg, rfl⟩, hmem⟩ := hgs
  obtain ⟨c, hc, rfl⟩ := List.mem_map.mp hmem
  exact find_cliques_nonempty c hc

theorem duplicates_nonempty {α : Type} [LinearOrderedField α] [FloorRing α]
    (results : List ((String × String) × α)) (gt : α) :
    ∀ g ∈ (process results gt).1, g ≠ [] := by
  intro g hg
  simp only [process, duplicatesOf, List.mem_map, List.mem_filter] at hg
  obtain ⟨gs, ⟨hgs, _⟩, rfl⟩ := hg
  exact cliques_groups_nonempty results gs hgs

theorem merge_ids_total : ∀ ids : List (List String), (∀ g ∈ ids, g ≠ []) →
    ∃ n tr, merge_ids ids = some (n, tr)
  | [], _ => ⟨0, [], rfl⟩
  | [] :: _, h => absurd rfl (h [] (List.mem_cons_self _ _))
  | (target :: junk) :: rest, h => by
    obtain ⟨n, tr, hrec⟩ :=
      merge_ids_total rest (fun g2 hg2 => h g2 (List.mem_cons_of_mem _ hg2))
    refine ⟨junk.length + n,
      (junk.flatMap fun j => [.remap j target, .removeId j]) ++ tr, ?_⟩
    rw [merge_ids, hrec]

/-- C7 (amended): when some cached group member no longer resolves in the
live collection, the merge operator raises no error, but it does not merely
skip that member: it re-runs the whole duplicate detection on the live
collection and merges the freshly detected duplicate groups — whatever they
are — in place of the cached ones. -/
theorem C7_stale_member_triggers_recompute (stale : List (List String))
    (live : List (String × List NodeProps)) (t gt : ℝ) (res : List ScoreEntry)
    (hmiss : stale.all (fun g => g.all fun n => (live.map Prod.fst).contains n) = false)
    (hfs : find_similar live t = .ok res) :
    mergeExecute stale live t gt = merge_ids (process res gt).1 ∧
      ∃ n tr, mergeExecute stale live t gt = some (n, tr) := by
  have hexec : mergeExecute stale live t gt = merge_ids (process res gt).1 := by
    rw [mergeExecute, if_neg (by rw [hmiss]; simp), hfs]
  refine ⟨hexec, ?_⟩
  obtain ⟨n, tr, h⟩ := merge_ids_total (process res gt).1 (duplicates_nonempty res gt)
  exact ⟨n, tr, hexec.trans h⟩

/-- C7 (witness): a cached pair with a vanished member "B" over a live
one-resource collection: the operator recomputes (finding nothing) and
merges zero groups without error. -/
theorem C7_witness :
    mergeExecute [["A", "B"]] [("A", [pA])] (1 / 2) (17 / 20) =
      merge_ids (process ([] : List ScoreEntry) (17 / 20)).1 ∧
      ∃ n tr, mergeExecute [["A", "B"]] [("A", [pA])] (1 / 2) (17 / 20) =
        some (n, tr) :=
  C7_stale_member_triggers_recompute [["A", "B"]] [("A", [pA])] (1 / 2) (17 / 20) []
    (by decide) (by rfl)

theorem fs_c7_eval :
    find_similar c7Live (3 / 5) = .ok [(("A", "C"), 1), (("D", "E"), 1)] := by
  have hAC : fsStep (3 / 5) "A" [pA] "C" [pA] [] [] =
      .ok ([(("A", "C"), (1 : ℝ))], [({"A", "C"} : Finset String)], .fastPath) :=
    fsStep_fast_le (by simp) (by decide) (by decide) (by norm_num) rfl
  have hAD : fsStep (3 / 5) "A" [pA] "D" [rA, rB, rC]
      [({"A", "C"} : Finset String)] [(("A", "C"), (1 : ℝ))] =
      .ok ([(("A", "C"), (1 : ℝ))],
        [({"A", "D"} : Finset String), ({"A", "C"} : Finset String)], .ratioSkip) :=
    fsStep_ratio_le (by decide) (by decide) (by decide) (by norm_num)
  have hAE : fsStep (3 / 5) "A" [pA] "E" [rA, rB, rC]
      [({"A", "D"} : Finset String), ({"A", "C"} : Finset String)]
      [(("A", "C"), (1 : ℝ))] =
      .ok ([(("A", "C"), (1 : ℝ))],
        [({"A", "E"} : Finset String), ({"A", "D"} : Finset String),
          ({"A", "C"} : Finset String)], .ratioSkip) :=
    fsStep_ratio_le (by decide) (by decide) (by decide) (by norm_num)
  have hCD : fsStep (3 / 5) "C" [pA] "D" [rA, rB, rC]
      [({"A", "E"} : Finset String), ({"A", "D"} : Finset String),
        ({"A", "C"} : Finset String)]
      [(("A", "C"), (1 : ℝ))] =
      .ok ([(("A", "C"), (1 : ℝ))],
        [({"C", "D"} : Finset String), ({"A", "E"} : Finset String),
          ({"A", "D"} : Finset String), ({"A", "C"} : Finset String)], .ratioSkip) :=
    fsStep_ratio_le (by decide) (by decide) (by decide) (by norm_num)
  have hCE : fsStep (3 / 5) "C" [pA] "E" [rA, rB, rC]
      [({"C", "D"} : Finset String), ({"A", "E"} : Finset String),
        ({"A", "D"} : Finset String), ({"A", "C"} : Finset String)]
      [(("A", "C"), (1 : ℝ))] =
      .ok ([(("A", "C"), (1 : ℝ))],
        [({"C", "E"} : Finset String), ({"C", "D"} : Finset String),
          ({"A", "E"} : Finset String), ({"A", "D"} : Finset String),
          ({"A", "C"} : Finset String)], .ratioSkip) :=
    fsStep_ratio_le (by decide) (by decide) (by decide) (by norm_num)
  have hDE : fsStep (3 / 5) "D" [rA, rB, rC] "E" [rA, rB, rC]
      [({"C", "E"} : Finset String), ({"C", "D"} : Finset String),
        ({"A", "E"} : Finset String), ({"A", "D"} : Finset String),
        ({"A", "C"} : Finset String)]
      [(("A", "C"), (1 : ℝ))] =
      .ok ([(("A", "C"), (1 : ℝ)), (("D", "E"), (1 : ℝ))],
        [({"D", "E"} : Finset String), ({"C", "E"} : Finset String),
          ({"C", "D"} : Finset String), ({"A", "E"} : Finset String),
          ({"A", "D"} : Finset String), ({"A", "C"} : Finset String)], .fastPath) :=
    fsStep_fast_le (by decide) (by decide) (by decide) (by norm_num) rfl
  have hAA : fsStep (3 / 5) "A" [pA] "A" [pA] [] [] = .ok ([], [], .seenSkip) :=
    fsStep_seen (Or.inr rfl)
  have hCA : fsStep (3 / 5) "C" [pA] "A" [pA]
      [({"A", "E"} : Finset String), ({"A", "D"} : Finset String),
        ({"A", "C"} : Finset String)] [(("A", "C"), (1 : ℝ))] =
      .ok ([(("A", "C"), (1 : ℝ))],
        [({"A", "E"} : Finset String), ({"A", "D"} : Finset String),
          ({"A", "C"} : Finset String)], .seenSkip) :=
    fsStep_seen (Or.inl (by decide))
  have hCC : fsStep (3 / 5) "C" [pA] "C" [pA]
      [({"A", "E"} : Finset String), ({"A", "D"} : Finset String),
        ({"A", "C"} : Finset String)] [(("A", "C"), (1 : ℝ))] =
      .ok ([(("A", "C"), (1 : ℝ))],
        [({"A", "E"} : Finset String), ({"A", "D"} : Finset String),
          ({"A", "C"} : Finset String)], .seenSkip) :=
    fsStep_seen (Or.inr rfl)
  have hDA : fsStep (3 / 5) "D" [rA, rB, rC] "A" [pA]
      [({"C", "E"} : Finset String), ({"C", "D"} : Finset String),
        ({"A", "E"} : Finset String), ({"A", "D"} : Finset String),
        ({"A", "C"} : Finset String)] [(("A", "C"), (1 : ℝ))] =
      .ok ([(("A", "C"), (1 : ℝ))],
        [({"C", "E"} : Finset String), ({"C", "D"} : Finset String),
          ({"A", "E"} : Finset String), ({"A", "D"} : Finset String),
          ({"A", "C"} : Finset String)], .seenSkip) :=
    fsStep_seen (Or.inl (by decide))
  have hDC : fsStep (3 / 5) "D" [rA, rB, rC] "C" [pA]
      [({"C", "E"} : Finset String), ({"C", "D"} : Finset String),
        ({"A", "E"} : Finset String), ({"A", "D"} : Finset String),
        ({"A", "C"} : Finset String)] [(("A", "C"), (1 : ℝ))] =
      .ok ([(("A", "C"), (1 : ℝ))],
        [({"C", "E"} : Finset String), ({"C", "D"} : Finset String),
          ({"A", "E"} : Finset String), ({"A", "D"} : Finset String),
          ({"A", "C"} : Finset String)], .seenSkip) :=
    fsStep_seen (Or.inl (by decide))
  have hDD : fsStep (3 / 5) "D" [rA, rB, rC] "D" [rA, rB, rC]
      [({"C", "E"} : Finset String), ({"C", "D"} : Finset String),
        ({"A", "E"} : Finset String), ({"A", "D"} : Finset String),
        ({"A", "C"} : Finset String)] [(("A", "C"), (1 : ℝ))] =
      .ok ([(("A", "C"), (1 : ℝ))],
        [({"C", "E"} : Finset String), ({"C", "D"} : Finset String),
          ({"A", "E"} : Finset String), ({"A", "D"} : Finset String),
          ({"A", "C"} : Finset String)], .seenSkip) :=
    fsStep_seen (Or.inr rfl)
  have hEA : fsStep (3 / 5) "E" [rA, rB, rC] "A" [pA]
      [({"D", "E"} : Finset String), ({"C", "E"} : Finset String),
        ({"C", "D"} : Finset String), ({"A", "E"} : Finset String),
        ({"A", "D"} : Finset String), ({"A", "C"} : Finset String)]
      [(("A", "C"), (1 : ℝ)), (("D", "E"), (1 : ℝ))] =
      .ok ([(("A", "C"), (1 : ℝ)), (("D", "E"), (1 : ℝ))],
        [({"D", "E"} : Finset String), ({"C", "E"} : Finset String),
          ({"C", "D"} : Finset String), ({"A", "E"} : Finset String),
          ({"A", "D"} : Finset String), ({"A", "C"} : Finset String)], .seenSkip) :=
    fsStep_seen (Or.inl (by decide))
  have hEC : fsStep (3 / 5) "E" [rA, rB, rC] "C" [pA]
      [({"D", "E"} : Finset String), ({"C", "E"} : Finset String),
        ({"C", "D"} : Finset String), ({"A", "E"} : Finset String),
        ({"A", "D"} : Finset String), ({"A", "C"} : Finset String)]
      [(("A", "C"), (1 : ℝ)), (("D", "E"), (1 : ℝ))] =
      .ok ([(("A", "C"), (1 : ℝ)), (("D", "E"), (1 : ℝ))],
        [({"D", "E"} : Finset String), ({"C", "E"} : Finset String),
          ({"C", "D"} : Finset String), ({"A", "E"} : Finset String),
          ({"A", "D"} : Finset String), ({"A", "C"} : Finset String)], .seenSkip) :=
    fsStep_seen (Or.inl (by decide))
  have hED : fsStep (3 / 5) "E" [rA, rB, rC] "D" [rA, rB, rC]
      [({"D", "E"} : Finset String), ({"C", "E"} : Finset String),
        ({"C", "D"} : Finset String), ({"A", "E"} : Finset String),
        ({"A", "D"} : Finset String), ({"A", "C"} : Finset String)]
      [(("A", "C"), (1 : ℝ)), (("D", "E"), (1 : ℝ))] =
      .ok ([(("A", "C"), (1 : ℝ)), (("D", "E"), (1 : ℝ))],
        [({"D", "E"} : Finset String), ({"C", "E"} : Finset String),
          ({"C", "D"} : Finset String), ({"A", "E"} : Finset String),
          ({"A", "D"} : Finset String), ({"A", "C"} : Finset String)], .seenSkip) :=
    fsStep_seen (Or.inl (by decide))
  have hEE : fsStep (3 / 5) "E" [rA, rB, rC] "E" [rA, rB, rC]
      [({"D", "E"} : Finset String), ({"C", "E"} : Finset String),
        ({"C", "D"} : Finset String), ({"A", "E"} : Finset String),
        ({"A", "D"} : Finset String), ({"A", "C"} : Finset String)]
      [(("A", "C"), (1 : ℝ)), (("D", "E"), (1 : ℝ))] =
      .ok ([(("A", "C"), (1 : ℝ)), (("D", "E"), (1 : ℝ))],
        [({"D", "E"} : Finset String), ({"C", "E"} : Finset String),
          ({"C", "D"} : Finset String), ({"A", "E"} : Finset String),
          ({"A", "D"} : Finset String), ({"A", "C"} : Finset String)], .seenSkip) :=
    fsStep_seen (Or.inr rfl)
  simp only [c7Live, find_similar, fsOuter, fsInner, hAA, hAC, hAD, hAE,
    hCA, hCC, hCD, hCE, hDA, hDC, hDD, hDE, hEA, hEC, hED, hEE]

theorem proc_c7_eval :
    process [(("A", "C"), (1 : ℝ)), (("D", "E"), (1 : ℝ))] (17 / 20) =
      ([["A", "C"], ["D", "E"]], []) := by
  have hd1 : (decide ((1 : ℝ) < 1)) = false := decide_eq_false (lt_irrefl 1)
  have hd2 : (decide ((1 : ℝ) ≤ 1)) = true := decide_eq_true le_rfl
  have hbg : buildGraphs [(("A", "C"), (1 : ℝ)), (("D", "E"), (1 : ℝ))] =
      [((1 : ℝ), [("A", "C"), ("D", "E")])] := by
    simp [buildGraphs, addScoreEdge]
  have hfc : find_cliques [("A", "C"), ("D", "E")] = [["A", "C"], ["D", "E"]] := by
    decide
  have hcl : cliquesOf [(("A", "C"), (1 : ℝ)), (("D", "E"), (1 : ℝ))] =
      [(["A", "C"], (1 : ℝ)), (["D", "E"], (1 : ℝ))] := by
    simp [cliquesOf, hbg, hfc]
  simp [process, hcl, duplicatesOf, qualifyingOf, clusterGraphOf, groupsOf,
    componentsOf, rawScoredOf, dictUnion, seenNamesOf, scoredOf, ssort,
    hd1, hd2]

/-- C7: counterexample.  With cached groups [(A, B, C)] and a live
collection in which B was deleted but a fresh duplicate pair (D, E) exists,
the operator does not "silently skip B and merge the remaining members": it
recomputes from the live collection and merges the fresh groups, removing E
as well — a resource that is not a remaining member of any cached group —
and reporting count 2 instead of 1. -/
theorem C7_counterexample :
    mergeExecute c7Stale c7Live (3 / 5) (17 / 20) =
      some (2, [.remap "C" "A", .removeId "C", .remap "E" "D", .removeId "E"]) ∧
    merge_skipping_stale c7Stale (c7Live.map Prod.fst) = ["C"] ∧
    removedOf [.remap "C" "A", .removeId "C", .remap "E" "D", .removeId "E"] =
      ["C", "E"] ∧
    ("E" : String) ∉ merge_skipping_stale c7Stale (c7Live.map Prod.fst) := by
  refine ⟨?_, by decide, by decide, by decide⟩
  rw [mergeExecute, if_neg (by decide), fs_c7_eval]
  show merge_ids (process [(("A", "C"), (1 : ℝ)), (("D", "E"), (1 : ℝ))] (17 / 20)).1 =
    some (2, [.remap "C" "A", .removeId "C", .remap "E" "D", .removeId "E"])
  rw [proc_c7_eval]
  decide

/-! ### C9 -/

/-- C9: equality of two graph-reference entries compares exactly the source
output-socket index together with the referenced node's fingerprint with all
nested graph-reference entries removed (one level of reduction), and it is
therefore insensitive to anything deeper: two graphs agreeing on the
referenced nodes' non-reference entries decide the equality identically.
The comparison is a total computable function by construction — it never
recurses through references — so it terminates on cyclic node graphs. -/
theorem C9_link_eq_is_one_level_reduction (g g2 : NodeGraph) (i j : Nat) (t u : String)
    (ht : (propsOf g t).filter (fun e => !e.isLink) =
      (propsOf g2 t).filter (fun e => !e.isLink))
    (hu : (propsOf g u).filter (fun e => !e.isLink) =
      (propsOf g2 u).filter (fun e => !e.isLink)) :
    (link_eq g (.link i t) (.link j u) = true ↔
      i = j ∧ (propsOf g t).filter (fun e => !e.isLink) =
        (propsOf g u).filter (fun e => !e.isLink)) ∧
    link_eq g (.link i t) (.link j u) = link_eq g2 (.link i t) (.link j u) := by
  constructor
  · simp [link_eq, reduced_props, Prod.ext_iff]
  · simp [link_eq, reduced_props, Prod.ext_iff, ht, hu]

/-- C9 (witness): on the cyclic two-node graph where "a" and "b" reference
each other, the equality decides (terminates) and holds — the two link
entries agree on the socket index and on the referenced nodes' non-reference
entries — and replacing the deeper link structure entirely (`c9Other`) does
not change the outcome. -/
theorem C9_witness :
    (link_eq c9Cyclic (.link 0 "a") (.link 0 "b") = true ↔
      (0 : Nat) = 0 ∧ (propsOf c9Cyclic "a").filter (fun e => !e.isLink) =
        (propsOf c9Cyclic "b").filter (fun e => !e.isLink)) ∧
    link_eq c9Cyclic (.link 0 "a") (.link 0 "b") =
      link_eq c9Other (.link 0 "a") (.link 0 "b") :=
  C9_link_eq_is_one_level_reduction c9Cyclic c9Other 0 0 "a" "b" (by decide) (by decide)

/-! ### C10 -/

/-- C10: a candidate group with score below 1 passes the clustering-graph
filter of `process` (whose threshold is `round(grouping_threshold, 2)`,
modelled by `pyRound2`) exactly when its score is at least the rounded
threshold — the configured raw threshold plays no direct role. -/
theorem C10_rounded_threshold_filters_groups {α : Type} [LinearOrderedField α]
    [FloorRing α] (cliques : List (List String × α)) (g : List String) (s t : α)
    (hmem : (g, s) ∈ cliques) (hs : s < 1) :
    (g, s) ∈ qualifyingOf cliques (pyRound2 t) ↔ pyRound2 t ≤ s := by
  simp [qualifyingOf, List.mem_filter, hmem, hs]

set_option maxRecDepth 4000 in
/-- C10 (witness): with `grouping_threshold = 0.846` (rounded to 0.85) a
group scoring 0.848 is excluded although its score is at or above the
configured raw threshold. -/
theorem C10_witness :
    ((["x", "y"], (106 / 125 : ℚ)) ∉
      qualifyingOf [(["x", "y"], (106 / 125 : ℚ))] (pyRound2 (423 / 500))) ∧
    (423 / 500 : ℚ) ≤ 106 / 125 := by
  constructor
  · intro hmem
    have h := (C10_rounded_threshold_filters_groups
      [(["x", "y"], (106 / 125 : ℚ))] ["x", "y"] (106 / 125) (423 / 500)
      (by decide) (by decide)).mp hmem
    exact absurd h (by decide)
  · decide

end DBU
